import Mathlib

/-!
Verification of the FDG (frequency-decoupled guidance) core from
`src/nodes.py` against its natural-language specification.

Shallow embedding conventions:
* torch tensors are modelled as 4-dimensional arrays `B × C × H × W` over ℚ
  (the only shapes the core manipulates); the element values are exact
  rationals, the idealisation of the float computation the spec reasons in.
* dtypes are tracked as metadata (`DType`); casts change the tag only.
* broadcasting binary operations are fallible (`Option`), mirroring torch's
  runtime broadcast errors.
* the schedule generator (`create_guidance_scales`) is modelled over ℝ since
  the cosine branch is transcendental.
* the kornia pyramid functions (`build_laplacian_pyramid`, `pyrup`) are not
  part of the repository's sources; they are modelled from the spec (§4.2).
-/

/-- Element type tag of a tensor.  Values are exact rationals regardless of
the tag; `.to` just retags, as the claims treat dtype as metadata. -/
inductive DType
  | float16
  | float32
  | float64
deriving DecidableEq

/-- Promotion rank, torch-style: wider floats win. -/
def DType.rank : DType → ℕ
  | .float16 => 0
  | .float32 => 1
  | .float64 => 2

/-- Result dtype of a binary op between two dtypes (torch type promotion). -/
def DType.promote (d e : DType) : DType := if d.rank ≤ e.rank then e else d

/-- A 4-D tensor `batch × channel × height × width` with rational entries.
`data` is a total function; only indices below the dims are meaningful. -/
structure Tensor where
  b : ℕ
  c : ℕ
  h : ℕ
  w : ℕ
  dt : DType
  data : ℕ → ℕ → ℕ → ℕ → ℚ

/-- torch `.to(dtype)`: dtype cast, values unchanged in the exact model. -/
def Tensor.to (t : Tensor) (d : DType) : Tensor := { t with dt := d }

/-- torch `.double()`. -/
def Tensor.double (t : Tensor) : Tensor := t.to .float64

/-- Same dims (shape equality, dtype ignored). -/
def Tensor.sdim (t u : Tensor) : Prop :=
  t.b = u.b ∧ t.c = u.c ∧ t.h = u.h ∧ t.w = u.w

/-- Same dims and same entries at every in-range index (dtype ignored). -/
def Tensor.deqv (t u : Tensor) : Prop :=
  t.sdim u ∧
  ∀ i, i < t.b → ∀ j, j < t.c → ∀ k, k < t.h → ∀ l, l < t.w →
    t.data i j k l = u.data i j k l

/-- Observational equality of tensors: dims, dtype, and in-range entries. -/
def Tensor.eqv (t u : Tensor) : Prop := t.deqv u ∧ t.dt = u.dt

/-- Observational equality of fallible tensor results. -/
def optEqv : Option Tensor → Option Tensor → Prop
  | none, none => True
  | some t, some u => t.eqv u
  | _, _ => False

/-- Dims-and-data equality of fallible tensor results. -/
def optDeqv : Option Tensor → Option Tensor → Prop
  | none, none => True
  | some t, some u => t.deqv u
  | _, _ => False

/-- Broadcast of one dimension, torch semantics: equal dims broadcast to
themselves, a dim of 1 stretches to the other, anything else is an error. -/
def bdim (m n : ℕ) : Option ℕ :=
  if m = n then some m else if m = 1 then some n else if n = 1 then some m else none

/-- Index into a source dim `d` that was broadcast to `D`: identity when the
dims agree, constant 0 when the source dim was stretched from 1. -/
def bidx (d D i : ℕ) : ℕ := if d = D then i else 0

/-- Elementwise binary operation with torch broadcasting and type promotion;
fails (like torch) when some dimension pair is not broadcastable. -/
def ebin (f : ℚ → ℚ → ℚ) (t u : Tensor) : Option Tensor := do
  let B ← bdim t.b u.b
  let C ← bdim t.c u.c
  let H ← bdim t.h u.h
  let W ← bdim t.w u.w
  some ⟨B, C, H, W, t.dt.promote u.dt, fun i j k l =>
    f (t.data (bidx t.b B i) (bidx t.c C j) (bidx t.h H k) (bidx t.w W l))
      (u.data (bidx u.b B i) (bidx u.c C j) (bidx u.h H k) (bidx u.w W l))⟩

/-- torch `+` on tensors. -/
def tadd : Tensor → Tensor → Option Tensor := ebin (· + ·)

/-- torch `-` on tensors. -/
def tsub : Tensor → Tensor → Option Tensor := ebin (· - ·)

/-- torch `*` on tensors. -/
def tmul : Tensor → Tensor → Option Tensor := ebin (· * ·)

/-- Multiplication of a tensor by a python scalar (never fails, keeps dtype). -/
def smul (q : ℚ) (t : Tensor) : Tensor :=
  { t with data := fun i j k l => q * t.data i j k l }

/-- torch `x.sum(dim=[-1, -2, -3], keepdim=True)`: one scalar per batch
entry, broadcast back as a `(B,1,1,1)` tensor. -/
def sumCHW (t : Tensor) : Tensor :=
  ⟨t.b, 1, 1, 1, t.dt, fun i _ _ _ =>
    ∑ j in Finset.range t.c, ∑ k in Finset.range t.h, ∑ l in Finset.range t.w,
      t.data i j k l⟩

/-- Squared L2 norm of batch entry `i` over the channel/height/width axes. -/
def sqnormCHW (t : Tensor) (i : ℕ) : ℚ :=
  ∑ j in Finset.range t.c, ∑ k in Finset.range t.h, ∑ l in Finset.range t.w,
    (t.data i j k l) ^ 2

/-- Per-batch inner product over channel/height/width of two same-shape
tensors (used to state the decomposition claims). -/
def dotCHW (t u : Tensor) (i : ℕ) : ℚ :=
  ∑ j in Finset.range t.c, ∑ k in Finset.range t.h, ∑ l in Finset.range t.w,
    t.data i j k l * u.data i j k l

/-- Embedding of `project` (src/nodes.py lines 6-13).

The source computes `v1n = F.normalize(v1, dim=[-1,-2,-3])`, the inner
product `(v0 * v1n).sum(dim=[-1,-2,-3], keepdim=True)`, and multiplies by
`v1n` again.  The normalised `v1` enters twice, so the two divisions by the
per-batch L2 norm `‖v1‖` combine into one division by the squared norm
`sqnormCHW v1`, which is rational; we fold the two occurrences together to
stay in exact arithmetic.  ℚ's `q / 0 = 0` convention coincides with the
zero-output of torch's eps-guarded normalize on an exactly zero `v1`
(the float eps floor for tiny-but-nonzero norms is below the exact model's
resolution and outside the claims, which assume exact arithmetic). -/
def project (v0 v1 : Tensor) : Option (Tensor × Tensor) := do
  let dtype := v0.dt
  let v0 := v0.double
  let v1 := v1.double
  let prod ← tmul v0 v1
  let ip := sumCHW prod
  let coeff : Tensor := ⟨ip.b, 1, 1, 1, ip.dt, fun i _ _ _ =>
    ip.data i 0 0 0 / sqnormCHW v1 (bidx v1.b ip.b i)⟩
  let v0_parallel ← tmul coeff v1
  let v0_orthogonal ← tsub v0 v0_parallel
  return (v0_parallel.to dtype, v0_orthogonal.to dtype)

/-- Binomial 5-tap weights `[1,4,6,4,1]/16` used by the separable pyramid
blur (the spec leaves the exact fixed small kernel as a non-contractual
implementation detail; this is the classic Gaussian-like choice). -/
def K5 (m : ℕ) : ℚ := [1, 4, 6, 4, 1].getD m 0 / 16

/-- Clamp an integer sample position into `[0, H)` (border handling of the
fixed blur; the spec leaves the border rule as an implementation detail). -/
def clampIdx (H : ℕ) (z : ℤ) : ℕ := min z.toNat (H - 1)

/-- Modelled from the spec: vertical pass of the fixed 5-tap blur used by the
pyramid build/upsample pair (kornia's filter is not part of this repository's
sources).  Shape-preserving. -/
def blurH (t : Tensor) : Tensor :=
  { t with data := fun i j k l =>
      ∑ m in Finset.range 5, K5 m * t.data i j (clampIdx t.h ((k : ℤ) + m - 2)) l }

/-- Modelled from the spec: horizontal pass of the fixed 5-tap blur. -/
def blurW (t : Tensor) : Tensor :=
  { t with data := fun i j k l =>
      ∑ m in Finset.range 5, K5 m * t.data i j k (clampIdx t.w ((l : ℤ) + m - 2)) }

/-- Modelled from the spec: the fixed small-kernel separable blur. -/
def blur (t : Tensor) : Tensor := blurW (blurH t)

/-- Modelled from the spec: `pyrdown` — blur then 2× downsample (stride-2
sampling; odd sizes round up, which is the source of the one extra
row/column of padding the spec mentions). -/
def pyrdown (t : Tensor) : Tensor :=
  let bt := blur t
  ⟨t.b, t.c, (t.h + 1) / 2, (t.w + 1) / 2, t.dt, fun i j k l =>
    bt.data i j (2 * k) (2 * l)⟩

/-- Modelled from the spec: `pyrup` — upsample by exactly 2× per level
(nearest duplication) followed by the fixed blur. -/
def pyrup (t : Tensor) : Tensor :=
  blur ⟨t.b, t.c, 2 * t.h, 2 * t.w, t.dt, fun i j k l => t.data i j (k / 2) (l / 2)⟩

/-- Zero-pad the spatial dims of `t` up to `H × W` (the padding the pyramid
construction introduces on odd sizes, per the spec). -/
def padTo (t : Tensor) (H W : ℕ) : Tensor :=
  ⟨t.b, t.c, H, W, t.dt, fun i j k l =>
    if k < t.h ∧ l < t.w then t.data i j k l else 0⟩

/-- Same-shape subtraction used inside the pyramid construction (the two
operands are padded to equal sizes by construction, so it is total). -/
def psub (a u : Tensor) : Tensor :=
  ⟨a.b, a.c, a.h, a.w, a.dt.promote u.dt, fun i j k l =>
    a.data i j k l - u.data i j k l⟩

/-- Modelled from the spec: level `i` of the `L`-level Laplacian pyramid.
Intermediate levels are band-pass residuals — the Gaussian level minus the
2× upsampling of the next-coarser Gaussian level, zero-padded to the
upsampled (possibly one-larger) size; the last level is the coarsest
Gaussian base image. -/
def lapLevel (t : Tensor) (L i : ℕ) : Tensor :=
  if i + 1 < L then
    let gi := pyrdown^[i] t
    let up := pyrup (pyrdown^[i + 1] t)
    psub (padTo gi up.h up.w) up
  else
    pyrdown^[i] t

/-- Modelled from the spec: kornia's `build_laplacian_pyramid input max_level`
(finest-first; `max_level` levels, at least one). -/
def buildLaplacianPyramid (t : Tensor) (maxLevel : ℕ) : List Tensor :=
  (List.range (max 1 maxLevel)).map (lapLevel t (max 1 maxLevel))

/-- Crop a pyramid level to its expected spatial size
(`p[..., :a, :b]`; python slicing caps at the actual size). -/
def crop (t : Tensor) (a c : ℕ) : Tensor :=
  { t with h := min t.h a, w := min t.w c }

/-- Loop of `build_image_from_pyramid` (src/nodes.py lines 18-19), processed
coarsest-first: `img = pyrup(img) + pyramid[i]` for `i = len-2 .. 0`. -/
def reconstructLoop : List Tensor → Tensor → Option Tensor
  | [], img => some img
  | level :: rest, img => do
      let img ← reconstructLoop rest img
      tadd (pyrup img) level

/-- Embedding of `build_image_from_pyramid` (src/nodes.py lines 15-20);
`pyramid[-1]` on an empty pyramid is python's IndexError, hence `Option`. -/
def build_image_from_pyramid (pyramid : List Tensor) : Option Tensor := do
  let img ← pyramid.getLast?
  reconstructLoop pyramid.dropLast img

/-- python `zip` over four lists: truncates to the shortest. -/
def zip4 {α β γ δ : Type} : List α → List β → List γ → List δ → List (α × β × γ × δ)
  | a :: as, b :: bs, c :: cs, d :: ds => (a, b, c, d) :: zip4 as bs cs ds
  | _, _, _, _ => []

/-- Per-level loop of `laplacian_guidance` (src/nodes.py lines 58-75):
crop both pyramid levels to the exact expected size, form the
conditional/unconditional difference, re-weight its component parallel to
the conditional level, and apply the per-level guidance scale. -/
def guideLevels (origH origW : ℕ) : ℕ → List (Tensor × Tensor × ℚ × ℚ) → Option (List Tensor)
  | _, [] => some []
  | idx, (p_cond, p_uncond, scale, par_weight) :: rest => do
      let p_cond := crop p_cond (origH / 2 ^ idx) (origW / 2 ^ idx)
      let p_uncond := crop p_uncond (origH / 2 ^ idx) (origW / 2 ^ idx)
      let diff ← tsub p_cond p_uncond
      let pr ← project diff p_cond
      let diff ← tadd (smul par_weight pr.1) pr.2
      let p_guided ← tadd p_cond (smul (scale - 1) diff)
      let rest' ← guideLevels origH origW (idx + 1) rest
      return p_guided :: rest'

/-- Embedding of `laplacian_guidance` (src/nodes.py lines 22-80).
`parallel_weights = none` models the python default `None`, replaced by
all-ones of length `levels`. -/
def laplacian_guidance (pred_cond pred_uncond : Tensor)
    (guidance_scale : List ℚ) (parallel_weights : Option (List ℚ)) : Option Tensor := do
  let levels := guidance_scale.length
  let pw := parallel_weights.getD (List.replicate levels 1)
  let pred_cond_pyramid := buildLaplacianPyramid pred_cond levels
  let pred_uncond_pyramid := buildLaplacianPyramid pred_uncond levels
  let guided ← guideLevels pred_cond.h pred_cond.w 0
    (zip4 pred_cond_pyramid pred_uncond_pyramid guidance_scale pw)
  let out ← build_image_from_pyramid guided
  return out.to pred_cond.dt

/-- The cropped pyramid (each level cut to `floor(H/2^i) × floor(W/2^i)`),
used to state what the guidance output reduces to under identity scales. -/
def cropPyramid (H W : ℕ) : ℕ → List Tensor → List Tensor
  | _, [] => []
  | idx, t :: rest => crop t (H / 2 ^ idx) (W / 2 ^ idx) :: cropPyramid H W (idx + 1) rest

/-- torch `linspace(s, e, n)`: `n` evenly spaced values from `s` to `e`
(for `n = 1` the division by `n - 1 = 0` vanishes under ℝ's `x / 0 = 0`,
giving `[s]`, which is torch's behaviour). -/
noncomputable def linspace (s e : ℝ) (n : ℕ) : List ℝ :=
  (List.range n).map fun (i : ℕ) => s + (e - s) * (i : ℝ) / ((n : ℝ) - 1)

/-- Embedding of `create_guidance_scales` (src/nodes.py lines 83-96); the
`ValueError` of the unknown-method branch becomes `Except.error`. -/
noncomputable def create_guidance_scales (high_scale low_scale : ℝ) (levels : ℕ)
    (method : String) : Except String (List ℝ) :=
  if levels = 1 then .ok [high_scale]
  else if method = "linear" then .ok (linspace high_scale low_scale levels)
  else if method = "cosine" then
    .ok ((linspace 0 1 levels).map fun t =>
      low_scale + (high_scale - low_scale) * (1 / 2) * (1 + Real.cos (t * Real.pi)))
  else .error ("Unknown interpolation method: " ++ method)

/-- python `str.strip()` on a character list. -/
def pyStrip (cs : List Char) : List Char :=
  ((cs.dropWhile Char.isWhitespace).reverse.dropWhile Char.isWhitespace).reverse

/-- Numeric value of a digit string. -/
def digitsVal (cs : List Char) : ℕ := cs.foldl (fun a ch => 10 * a + (ch.toNat - 48)) 0

/-- python `str.split(sep)` on a character list (keeps empty pieces). -/
def splitOnChar (sep : Char) : List Char → List (List Char)
  | [] => [[]]
  | ch :: rest =>
      let r := splitOnChar sep rest
      if ch = sep then [] :: r else (ch :: r.headD []) :: r.tail

/-- Unsigned part of python `float(...)` on the plain decimal forms the
node's weight strings use (`"12"`, `"1.5"`, `"1."`, `".5"`); anything else
fails like python's ValueError. -/
def pyFloatCore (cs : List Char) : Option ℚ :=
  match splitOnChar '.' cs with
  | [ip] =>
      if ip ≠ [] ∧ ip.all Char.isDigit then some (digitsVal ip) else none
  | [ip, fp] =>
      if (ip ≠ [] ∨ fp ≠ []) ∧ ip.all Char.isDigit ∧ fp.all Char.isDigit then
        some ((digitsVal ip : ℚ) + (digitsVal fp : ℚ) / 10 ^ fp.length)
      else none
  | _ => none

/-- python `float(...)` with an optional sign. -/
def pyFloat (cs : List Char) : Option ℚ :=
  match cs with
  | '-' :: rest => (pyFloatCore rest).map (fun q => -q)
  | '+' :: rest => pyFloatCore rest
  | _ => pyFloatCore cs

/-- Parse each comma-separated piece in order, failing on the first piece
python's `float` would reject. -/
def parsePiecesGo : List (List Char) → Option (List ℚ)
  | [] => some []
  | p :: ps => do
      let q ← pyFloat (pyStrip p)
      let qs ← parsePiecesGo ps
      return q :: qs

/-- The try-block of FDGNode.patch (src/nodes.py line 147):
`[float(w.strip()) for w in parallel_weights.split(',')]`; `none` models the
except-branch being taken. -/
def parsePieces (s : String) : Option (List ℚ) :=
  parsePiecesGo (splitOnChar ',' s.data)

/-- Embedding of the parallel-weights parsing in FDGNode.patch
(src/nodes.py lines 146-156): fall back to all-ones on a parse failure,
right-pad a short list with 1.0, truncate a long one — always exactly
`levels` entries. -/
def parseParallelWeights (s : String) (levels : ℕ) : List ℚ :=
  let pl := (parsePieces s).getD (List.replicate levels 1)
  if pl.length < levels then pl ++ List.replicate (levels - pl.length) 1
  else pl.take levels

/-- python `math.isclose` with its defaults `rel_tol=1e-9`, `abs_tol=0.0`. -/
def isclose (a b : ℚ) : Bool := |a - b| ≤ 1 / 1000000000 * max |a| |b|

/-- Embedding of `fdg_function` (src/nodes.py lines 158-180), the per-step
gate: with no unconditional prediction return the conditional one unchanged;
otherwise clamp `fdg_steps` to the last schedule index and either run the
full mixer (current sigma strictly above the threshold sigma) or the plain
single-scale blend, with the near-1.0 `cond_scale` replaced by the
configured high scale.  Indexing an empty schedule is python's IndexError,
hence the `Option` bind on `get?`. -/
def fdg_function (guidance_scale_high : ℚ) (guidance_scale parallel_weights_list : List ℚ)
    (fdg_steps : ℕ) (cond : Tensor) (uncond : Option Tensor) (cond_scale : ℚ)
    (sample_sigmas : List ℚ) (sigma : ℚ) : Option Tensor :=
  let cond_scale := if isclose cond_scale 1 then guidance_scale_high else cond_scale
  match uncond with
  | some uncond => do
      let step_limits :=
        if sample_sigmas.length - 1 ≤ fdg_steps then sample_sigmas.length - 1 else fdg_steps
      let threshold ← sample_sigmas.get? step_limits
      if threshold < sigma then
        laplacian_guidance cond uncond guidance_scale (some parallel_weights_list)
      else do
        let d ← tsub cond uncond
        tadd uncond (smul cond_scale d)
  | none => some cond

/-- Constant test tensor (concrete inputs for witnesses/counterexamples). -/
def konst (bb cc hh ww : ℕ) (q : ℚ) : Tensor := ⟨bb, cc, hh, ww, .float32, fun _ _ _ _ => q⟩

/-- Spatial size of one pyrdown step: `ceil(n / 2)`. -/
def halveCeil (n : ℕ) : ℕ := (n + 1) / 2

/-! ## Schedule generator (claims C7, C8) -/

theorem linspace_length (s e : ℝ) (n : ℕ) : (linspace s e n).length = n := by
  rw [linspace, List.length_map, List.length_range]

theorem linspace_getD (s e : ℝ) (n i : ℕ) (h : i < n) :
    (linspace s e n).getD i 0 = s + (e - s) * i / ((n : ℝ) - 1) := by
  rw [linspace, List.getD_eq_getElem?_getD, List.getElem?_map, List.getElem?_range h]
  rfl

/-- C7 counterexample: with `levels = 1` an unknown interpolation method does
not raise — the degenerate branch returns `[high_scale]` before the method
string is ever examined. -/
theorem create_guidance_scales_levels_one_no_error :
    create_guidance_scales 10 1 1 "invalid" = .ok [10] := rfl

/-- C7 (amended): for every `levels ≠ 1`, calling `create_guidance_scales`
with a method other than "linear" or "cosine" fails with the
invalid-argument (unknown interpolation method) error, raised at
schedule-generation time. -/
theorem create_guidance_scales_unknown_method (high low : ℝ) (levels : ℕ) (method : String)
    (hL : levels ≠ 1) (h1 : method ≠ "linear") (h2 : method ≠ "cosine") :
    create_guidance_scales high low levels method =
      .error ("Unknown interpolation method: " ++ method) := by
  simp [create_guidance_scales, hL, h1, h2]

theorem create_guidance_scales_unknown_method_witness :
    (4 : ℕ) ≠ 1 ∧ "invalid" ≠ "linear" ∧ "invalid" ≠ "cosine" ∧
      create_guidance_scales 10 1 4 "invalid" =
        .error ("Unknown interpolation method: " ++ "invalid") :=
  ⟨by decide, by decide, by decide,
    create_guidance_scales_unknown_method 10 1 4 "invalid" (by decide) (by decide) (by decide)⟩

theorem linspace_getElem (s e : ℝ) (n i : ℕ) (h : i < n) :
    (linspace s e n)[i]? = some (s + (e - s) * (i : ℝ) / ((n : ℝ) - 1)) := by
  rw [linspace, List.getElem?_map, List.getElem?_range h]
  rfl

/-- C8: for every `levels >= 2`, `create_guidance_scales high low levels "cosine"`
returns exactly `levels` values following
`low + (high-low) * 0.5 * (1 + cos(t*pi))` with `t` evenly spaced over `[0,1]`;
the first value is `high`, the last is `low`, and for `high > low` the
sequence is strictly decreasing. -/
theorem create_guidance_scales_cosine_spec (high low : ℝ) (levels : ℕ) (hL : 2 ≤ levels) :
    ∃ scales : List ℝ,
      create_guidance_scales high low levels "cosine" = .ok scales ∧
      scales.length = levels ∧
      (∀ i, i < levels → scales.getD i 0 =
        low + (high - low) * (1 / 2) * (1 + Real.cos ((i : ℝ) / ((levels : ℝ) - 1) * Real.pi))) ∧
      scales.getD 0 0 = high ∧
      scales.getD (levels - 1) 0 = low ∧
      (low < high → ∀ i, i + 1 < levels → scales.getD (i + 1) 0 < scales.getD i 0) := by
  have hn : levels ≠ 1 := by omega
  have hc2 : (2 : ℝ) ≤ (levels : ℝ) := by exact_mod_cast hL
  have hpos : (0 : ℝ) < (levels : ℝ) - 1 := by linarith
  have key : ∀ i, i < levels →
      ((linspace 0 1 levels).map fun t =>
        low + (high - low) * (1 / 2) * (1 + Real.cos (t * Real.pi))).getD i 0 =
      low + (high - low) * (1 / 2) * (1 + Real.cos ((i : ℝ) / ((levels : ℝ) - 1) * Real.pi)) := by
    intro i hi
    rw [List.getD_eq_getElem?_getD, List.getElem?_map, linspace_getElem 0 1 levels i hi]
    rw [Option.map_some', Option.getD_some]
    ring_nf
  refine ⟨(linspace 0 1 levels).map fun t =>
      low + (high - low) * (1 / 2) * (1 + Real.cos (t * Real.pi)), ?_, ?_, key, ?_, ?_, ?_⟩
  · simp only [create_guidance_scales, if_neg hn]
    rw [if_neg (by decide : ¬("cosine" = "linear")), if_pos trivial]
  · rw [List.length_map, linspace, List.length_map, List.length_range]
  · rw [key 0 (by omega)]
    have h0 : ((0 : ℕ) : ℝ) / ((levels : ℝ) - 1) * Real.pi = 0 := by
      push_cast
      ring
    rw [h0, Real.cos_zero]
    ring
  · rw [key (levels - 1) (by omega)]
    have hcast : ((levels - 1 : ℕ) : ℝ) = (levels : ℝ) - 1 := by
      push_cast [Nat.cast_sub (by omega : 1 ≤ levels)]
      ring
    have h1 : ((levels - 1 : ℕ) : ℝ) / ((levels : ℝ) - 1) * Real.pi = Real.pi := by
      rw [hcast, div_self (ne_of_gt hpos)]
      ring
    rw [h1, Real.cos_pi]
    ring
  · intro hlh i hi
    rw [key (i + 1) hi, key i (by omega)]
    have hb1 : ((i : ℝ) + 1) ≤ (levels : ℝ) - 1 := by
      have : (i : ℝ) + 2 ≤ (levels : ℝ) := by exact_mod_cast hi
      linarith
    have hpi := Real.pi_pos
    have hx : (i : ℝ) / ((levels : ℝ) - 1) * Real.pi ∈ Set.Icc 0 Real.pi := by
      constructor
      · positivity
      · have hle : (i : ℝ) / ((levels : ℝ) - 1) ≤ 1 := by
          rw [div_le_one hpos]
          linarith
        calc (i : ℝ) / ((levels : ℝ) - 1) * Real.pi ≤ 1 * Real.pi := by
              exact mul_le_mul_of_nonneg_right hle hpi.le
          _ = Real.pi := one_mul _
    have hy : ((i + 1 : ℕ) : ℝ) / ((levels : ℝ) - 1) * Real.pi ∈ Set.Icc 0 Real.pi := by
      constructor
      · positivity
      · have hle : ((i + 1 : ℕ) : ℝ) / ((levels : ℝ) - 1) ≤ 1 := by
          rw [div_le_one hpos]
          push_cast
          linarith
        calc ((i + 1 : ℕ) : ℝ) / ((levels : ℝ) - 1) * Real.pi ≤ 1 * Real.pi := by
              exact mul_le_mul_of_nonneg_right hle hpi.le
          _ = Real.pi := one_mul _
    have hlt : (i : ℝ) / ((levels : ℝ) - 1) * Real.pi
        < ((i + 1 : ℕ) : ℝ) / ((levels : ℝ) - 1) * Real.pi := by
      have : (i : ℝ) / ((levels : ℝ) - 1) < ((i + 1 : ℕ) : ℝ) / ((levels : ℝ) - 1) := by
        rw [div_lt_div_iff_of_pos_right hpos]
        push_cast
        linarith
      exact mul_lt_mul_of_pos_right this hpi
    have hcos := Real.strictAntiOn_cos hx hy hlt
    nlinarith [hcos, hlh]

theorem create_guidance_scales_cosine_spec_witness :
    (2 : ℕ) ≤ 4 ∧
      (∃ scales : List ℝ,
        create_guidance_scales 10 1 4 "cosine" = .ok scales ∧
        scales.length = 4 ∧
        (∀ i, i < 4 → scales.getD i 0 =
          1 + ((10 : ℝ) - 1) * (1 / 2) * (1 + Real.cos ((i : ℝ) / (((4 : ℕ) : ℝ) - 1) * Real.pi))) ∧
        scales.getD 0 0 = 10 ∧
        scales.getD (4 - 1) 0 = 1 ∧
        ((1 : ℝ) < 10 → ∀ i, i + 1 < 4 → scales.getD (i + 1) 0 < scales.getD i 0)) :=
  ⟨by norm_num, create_guidance_scales_cosine_spec 10 1 4 (by norm_num)⟩

/-! ## Parallel-weight parsing (claim C9) -/

/-- C9: the parallel-weights parsing in FDGNode.patch always yields exactly
`levels` floats before mixing: a parse failure falls back to all-ones of
length `levels`, a short list is right-padded with 1.0, a long list is
truncated; in particular "1.0,2.0" with levels 4 gives [1,2,1,1] and
"1,2,3,4,5" with levels 4 gives [1,2,3,4]. -/
theorem parseParallelWeights_spec :
    (∀ s levels, (parseParallelWeights s levels).length = levels) ∧
    (∀ s levels, parsePieces s = none →
      parseParallelWeights s levels = List.replicate levels 1) ∧
    parseParallelWeights "1.0,2.0" 4 = [1, 2, 1, 1] ∧
    parseParallelWeights "1,2,3,4,5" 4 = [1, 2, 3, 4] := by
  refine ⟨?_, ?_, ?_, ?_⟩
  · intro s levels
    rw [parseParallelWeights]
    set pl := (parsePieces s).getD (List.replicate levels 1) with hpl
    by_cases hlen : pl.length < levels
    · rw [if_pos hlen, List.length_append, List.length_replicate]
      omega
    · rw [if_neg hlen, List.length_take]
      omega
  · intro s levels hfail
    rw [parseParallelWeights, hfail]
    simp
  · simp +decide [parseParallelWeights, parsePieces, parsePiecesGo, pyFloat, pyFloatCore,
      pyStrip, splitOnChar, digitsVal]
  · decide

theorem parseParallelWeights_spec_witness :
    parsePieces "abc" = none ∧ parseParallelWeights "abc" 3 = List.replicate 3 1 :=
  ⟨by decide, parseParallelWeights_spec.2.1 "abc" 3 (by decide)⟩

/-! ## Vector decomposition: error behaviour (claim C6) -/

theorem bdim_self (m : ℕ) : bdim m m = some m := by simp [bdim]

theorem bdim_one_left (n : ℕ) : bdim 1 n = some n := by
  unfold bdim
  split_ifs with h <;> simp_all

theorem bdim_left_absorb {m n D : ℕ} (h : bdim m n = some D) : bdim m D = some D := by
  unfold bdim at h ⊢
  split_ifs at h ⊢ <;> simp_all

theorem bdim_right_absorb {m n D : ℕ} (h : bdim m n = some D) : bdim D n = some D := by
  unfold bdim at h ⊢
  split_ifs at h ⊢ <;> simp_all

theorem bdim_isSome_iff (m n : ℕ) : (bdim m n).isSome ↔ (m = n ∨ m = 1 ∨ n = 1) := by
  unfold bdim
  split_ifs <;> simp_all

theorem ebin_eq_some (f : ℚ → ℚ → ℚ) (t u : Tensor) {B C H W : ℕ}
    (h1 : bdim t.b u.b = some B) (h2 : bdim t.c u.c = some C)
    (h3 : bdim t.h u.h = some H) (h4 : bdim t.w u.w = some W) :
    ebin f t u = some ⟨B, C, H, W, t.dt.promote u.dt, fun i j k l =>
      f (t.data (bidx t.b B i) (bidx t.c C j) (bidx t.h H k) (bidx t.w W l))
        (u.data (bidx u.b B i) (bidx u.c C j) (bidx u.h H k) (bidx u.w W l))⟩ := by
  rw [ebin, h1, h2, h3, h4]
  rfl

theorem ebin_isSome_iff (f : ℚ → ℚ → ℚ) (t u : Tensor) :
    (ebin f t u).isSome ↔ ((bdim t.b u.b).isSome ∧ (bdim t.c u.c).isSome ∧
      (bdim t.h u.h).isSome ∧ (bdim t.w u.w).isSome) := by
  rw [ebin]
  rcases h1 : bdim t.b u.b with _ | B <;> rcases h2 : bdim t.c u.c with _ | C <;>
    rcases h3 : bdim t.h u.h with _ | H <;> rcases h4 : bdim t.w u.w with _ | W <;>
    simp [Option.bind]

theorem project_isSome_iff (v0 v1 : Tensor) :
    (project v0 v1).isSome ↔
      ((v0.b = v1.b ∨ v0.b = 1 ∨ v1.b = 1) ∧ (v0.c = v1.c ∨ v0.c = 1 ∨ v1.c = 1) ∧
       (v0.h = v1.h ∨ v0.h = 1 ∨ v1.h = 1) ∧ (v0.w = v1.w ∨ v0.w = 1 ∨ v1.w = 1)) := by
  constructor
  · intro hsome
    rw [project] at hsome
    rcases hmul : tmul v0.double v1.double with _ | prod
    · rw [hmul] at hsome
      simp [Option.bind] at hsome
    · have : (tmul v0.double v1.double).isSome := by rw [hmul]; rfl
      rw [tmul, ebin_isSome_iff] at this
      obtain ⟨a, b, c, d⟩ := this
      rw [bdim_isSome_iff] at a b c d
      exact ⟨a, b, c, d⟩
  · intro ⟨a, b, c, d⟩
    have h1 : (bdim v0.b v1.b).isSome := (bdim_isSome_iff _ _).2 a
    have h2 : (bdim v0.c v1.c).isSome := (bdim_isSome_iff _ _).2 b
    have h3 : (bdim v0.h v1.h).isSome := (bdim_isSome_iff _ _).2 c
    have h4 : (bdim v0.w v1.w).isSome := (bdim_isSome_iff _ _).2 d
    obtain ⟨B, hB⟩ := Option.isSome_iff_exists.1 h1
    obtain ⟨C, hC⟩ := Option.isSome_iff_exists.1 h2
    obtain ⟨H, hH⟩ := Option.isSome_iff_exists.1 h3
    obtain ⟨W, hW⟩ := Option.isSome_iff_exists.1 h4
    simp [project, tmul, tsub, ebin, sumCHW, Tensor.double, Tensor.to, hB, hC, hH, hW,
      bdim_right_absorb hB, bdim_one_left, bdim_left_absorb hB, bdim_left_absorb hC,
      bdim_left_absorb hH, bdim_left_absorb hW]

/-- C6 counterexample: `project` succeeds on a pair of differently-shaped
tensors (shapes `(1,1,2,2)` and `(1,1,1,1)`) because torch broadcasting
accepts them, refuting "for every pair of differently-shaped tensors it
fails with a shape-mismatch error". -/
theorem project_shape_mismatch_counterexample :
    (project (konst 1 1 2 2 1) (konst 1 1 1 1 1)).isSome = true ∧
      ¬ (konst 1 1 2 2 1).sdim (konst 1 1 1 1 1) := by
  constructor
  · decide
  · intro h
    exact absurd h.2.2.1 (by decide)

/-- C6 (amended): `project` never checks shapes itself; it fails exactly when
some dimension pair is not broadcastable (the shape-mismatch error is the
tensor library's broadcast error), so every identically-shaped pair
succeeds — but a differently-shaped yet broadcast-compatible pair succeeds
as well, so failure is not equivalent to shape difference. -/
theorem project_failure_characterization (v0 v1 : Tensor) :
    ((project v0 v1).isSome ↔
      ((v0.b = v1.b ∨ v0.b = 1 ∨ v1.b = 1) ∧ (v0.c = v1.c ∨ v0.c = 1 ∨ v1.c = 1) ∧
       (v0.h = v1.h ∨ v0.h = 1 ∨ v1.h = 1) ∧ (v0.w = v1.w ∨ v0.w = 1 ∨ v1.w = 1))) ∧
    (v0.sdim v1 → (project v0 v1).isSome) := by
  refine ⟨project_isSome_iff v0 v1, fun hs => (project_isSome_iff v0 v1).2 ?_⟩
  exact ⟨Or.inl hs.1, Or.inl hs.2.1, Or.inl hs.2.2.1, Or.inl hs.2.2.2⟩

theorem project_failure_characterization_witness :
    (konst 1 1 2 2 1).sdim (konst 1 1 2 2 1) ∧
      (project (konst 1 1 2 2 1) (konst 1 1 2 2 1)).isSome :=
  ⟨⟨rfl, rfl, rfl, rfl⟩,
    (project_failure_characterization (konst 1 1 2 2 1) (konst 1 1 2 2 1)).2
      ⟨rfl, rfl, rfl, rfl⟩⟩

/-! ## Vector decomposition: zero reference (claim C5) and correctness (claim C2) -/

/-- C5: for every tensor `v0` and an all-zero reference `v1` of the same
shape, `project v0 v1` raises no error (the normalization is safe): the
parallel component is the zero tensor and the orthogonal component equals
`v0`. -/
theorem project_zero_reference (v0 v1 : Tensor)
    (hb : v0.b = v1.b) (hc : v0.c = v1.c) (hh : v0.h = v1.h) (hw : v0.w = v1.w)
    (hz : ∀ i, i < v1.b → ∀ j, j < v1.c → ∀ k, k < v1.h → ∀ l, l < v1.w →
      v1.data i j k l = 0) :
    ∃ pr : Tensor × Tensor, project v0 v1 = some pr ∧
      pr.1.sdim v0 ∧ pr.2.sdim v0 ∧
      (∀ i, i < v0.b → ∀ j, j < v0.c → ∀ k, k < v0.h → ∀ l, l < v0.w →
        pr.1.data i j k l = 0 ∧ pr.2.data i j k l = v0.data i j k l) := by
  obtain ⟨b0, c0, h0, w0, d0, f0⟩ := v0
  obtain ⟨b1, c1, h1, w1, d1, f1⟩ := v1
  obtain rfl : b0 = b1 := hb
  obtain rfl : c0 = c1 := hc
  obtain rfl : h0 = h1 := hh
  obtain rfl : w0 = w1 := hw
  simp only [] at hz
  simp [project, tmul, tsub, ebin, sumCHW, Tensor.double, Tensor.to, bdim_self,
    bdim_one_left, bidx, Tensor.sdim]
  intro i hi j hj k hk l hl
  rw [hz i hi j hj k hk l hl]
  simp

theorem project_zero_reference_witness :
    (∀ i, i < (konst 1 1 1 1 0).b → ∀ j, j < (konst 1 1 1 1 0).c →
      ∀ k, k < (konst 1 1 1 1 0).h → ∀ l, l < (konst 1 1 1 1 0).w →
        (konst 1 1 1 1 0).data i j k l = 0) ∧
    (∃ pr : Tensor × Tensor, project (konst 1 1 1 1 5) (konst 1 1 1 1 0) = some pr ∧
      pr.1.sdim (konst 1 1 1 1 5) ∧ pr.2.sdim (konst 1 1 1 1 5) ∧
      (∀ i, i < (konst 1 1 1 1 5).b → ∀ j, j < (konst 1 1 1 1 5).c →
        ∀ k, k < (konst 1 1 1 1 5).h → ∀ l, l < (konst 1 1 1 1 5).w →
          pr.1.data i j k l = 0 ∧ pr.2.data i j k l = (konst 1 1 1 1 5).data i j k l)) :=
  ⟨by decide,
    project_zero_reference (konst 1 1 1 1 5) (konst 1 1 1 1 0) rfl rfl rfl rfl (by decide)⟩

theorem sqnormCHW_eq_zero_iff (t : Tensor) (i : ℕ) :
    sqnormCHW t i = 0 ↔
      (∀ j, j < t.c → ∀ k, k < t.h → ∀ l, l < t.w → t.data i j k l = 0) := by
  unfold sqnormCHW
  rw [Finset.sum_eq_zero_iff_of_nonneg
    (fun x _ => Finset.sum_nonneg fun y _ => Finset.sum_nonneg fun z _ => sq_nonneg _)]
  constructor
  · intro hall j hj k hk l hl
    have hj' := hall j (Finset.mem_range.2 hj)
    rw [Finset.sum_eq_zero_iff_of_nonneg
      (fun x _ => Finset.sum_nonneg fun z _ => sq_nonneg _)] at hj'
    have hk' := hj' k (Finset.mem_range.2 hk)
    rw [Finset.sum_eq_zero_iff_of_nonneg (fun x _ => sq_nonneg _)] at hk'
    exact (pow_eq_zero_iff (by norm_num : (2 : ℕ) ≠ 0)).1 (hk' l (Finset.mem_range.2 hl))
  · intro hz j hjmem
    refine Finset.sum_eq_zero fun k hkmem => Finset.sum_eq_zero fun l hlmem => ?_
    rw [hz j (Finset.mem_range.1 hjmem) k (Finset.mem_range.1 hkmem) l
      (Finset.mem_range.1 hlmem)]
    ring

/-- C2: for same-shape `v0`, `v1` with every batch entry of `v1` nonzero,
`project v0 v1` succeeds with components of `v0`'s shape such that
parallel + orthogonal reconstructs `v0`, the parallel component is the
per-batch inner product with the unit-normalized `v1` times that unit vector
(in exact arithmetic `(v0 . v1hat) * v1hat = (<v0,v1>/<v1,v1>) * v1`), and
the per-batch inner product of the orthogonal component with `v1` is zero. -/
theorem project_decomposition (v0 v1 : Tensor)
    (hb : v0.b = v1.b) (hc : v0.c = v1.c) (hh : v0.h = v1.h) (hw : v0.w = v1.w)
    (hnz : ∀ i, i < v1.b → ¬ (∀ j, j < v1.c → ∀ k, k < v1.h → ∀ l, l < v1.w →
      v1.data i j k l = 0)) :
    ∃ pr : Tensor × Tensor, project v0 v1 = some pr ∧
      pr.1.sdim v0 ∧ pr.2.sdim v0 ∧
      (∀ i, i < v0.b → ∀ j, j < v0.c → ∀ k, k < v0.h → ∀ l, l < v0.w →
        pr.1.data i j k l + pr.2.data i j k l = v0.data i j k l ∧
        pr.1.data i j k l = dotCHW v0 v1 i / sqnormCHW v1 i * v1.data i j k l) ∧
      (∀ i, i < v0.b → dotCHW pr.2 v1 i = 0) := by
  obtain ⟨b0, c0, h0, w0, d0, f0⟩ := v0
  obtain ⟨b1, c1, h1, w1, d1, f1⟩ := v1
  obtain rfl : b0 = b1 := hb
  obtain rfl : c0 = c1 := hc
  obtain rfl : h0 = h1 := hh
  obtain rfl : w0 = w1 := hw
  simp only [] at hnz
  simp [project, tmul, tsub, ebin, sumCHW, Tensor.double, Tensor.to, bdim_self,
    bdim_one_left, bidx, Tensor.sdim, dotCHW, sqnormCHW]
  intro i hi
  have hNne : (∑ x ∈ Finset.range c0, ∑ y ∈ Finset.range h0, ∑ z ∈ Finset.range w0,
      f1 i x y z ^ 2) ≠ 0 :=
    fun h0' => hnz i hi ((sqnormCHW_eq_zero_iff ⟨b0, c0, h0, w0, d1, f1⟩ i).1 h0')
  simp only [sub_mul, Finset.sum_sub_distrib, mul_assoc, ← Finset.mul_sum, ← pow_two]
  rw [div_mul_cancel₀ _ hNne]
  exact sub_self _

theorem project_decomposition_witness :
    (∀ i, i < (konst 1 1 1 2 1).b → ¬ (∀ j, j < (konst 1 1 1 2 1).c →
      ∀ k, k < (konst 1 1 1 2 1).h → ∀ l, l < (konst 1 1 1 2 1).w →
        (konst 1 1 1 2 1).data i j k l = 0)) ∧
    (∃ pr : Tensor × Tensor, project (konst 1 1 1 2 3) (konst 1 1 1 2 1) = some pr ∧
      pr.1.sdim (konst 1 1 1 2 3) ∧ pr.2.sdim (konst 1 1 1 2 3) ∧
      (∀ i, i < (konst 1 1 1 2 3).b → ∀ j, j < (konst 1 1 1 2 3).c →
        ∀ k, k < (konst 1 1 1 2 3).h → ∀ l, l < (konst 1 1 1 2 3).w →
          pr.1.data i j k l + pr.2.data i j k l = (konst 1 1 1 2 3).data i j k l ∧
          pr.1.data i j k l = dotCHW (konst 1 1 1 2 3) (konst 1 1 1 2 1) i /
            sqnormCHW (konst 1 1 1 2 1) i * (konst 1 1 1 2 1).data i j k l) ∧
      (∀ i, i < (konst 1 1 1 2 3).b → dotCHW pr.2 (konst 1 1 1 2 1) i = 0)) :=
  ⟨by decide,
    project_decomposition (konst 1 1 1 2 3) (konst 1 1 1 2 1) rfl rfl rfl rfl (by decide)⟩

/-! ## Extra parallel weights are ignored (claim C10) -/

theorem zip4_take {α β γ δ : Type} (as : List α) (bs : List β) (cs : List γ) (ds : List δ)
    (n : ℕ) (h : cs.length ≤ n) : zip4 as bs cs (ds.take n) = zip4 as bs cs ds := by
  induction as generalizing bs cs ds n with
  | nil => simp [zip4]
  | cons a as ih =>
    cases bs with
    | nil => simp [zip4]
    | cons b bs =>
      cases cs with
      | nil => simp [zip4]
      | cons c cs =>
        cases ds with
        | nil => simp [zip4]
        | cons d ds =>
          cases n with
          | zero => simp at h
          | succ n =>
            rw [List.take_succ_cons]
            simp only [zip4, List.cons.injEq, true_and]
            exact ih bs cs ds n (by simpa using h)

/-- C10: calling `laplacian_guidance` with a `parallel_weights` list strictly
longer than `guidance_scale` raises no error and returns exactly the result
of the call with `parallel_weights` truncated to the first
`len(guidance_scale)` entries: the level count is determined solely by
`len(guidance_scale)` (python's `zip` truncates), extra weights are ignored. -/
theorem laplacian_guidance_extra_weights (pred_cond pred_uncond : Tensor)
    (gs pw : List ℚ) (h : gs.length < pw.length) :
    laplacian_guidance pred_cond pred_uncond gs (some pw) =
      laplacian_guidance pred_cond pred_uncond gs (some (pw.take gs.length)) := by
  unfold laplacian_guidance
  simp only [Option.getD_some]
  rw [zip4_take _ _ _ _ _ (le_refl _)]

theorem laplacian_guidance_extra_weights_witness :
    ([(1 : ℚ)].length < [(2 : ℚ), 3].length) ∧
      laplacian_guidance (konst 1 1 2 2 1) (konst 1 1 2 2 0) [1] (some [2, 3]) =
        laplacian_guidance (konst 1 1 2 2 1) (konst 1 1 2 2 0) [1]
          (some ([(2 : ℚ), 3].take [(1 : ℚ)].length)) :=
  ⟨by decide,
    laplacian_guidance_extra_weights (konst 1 1 2 2 1) (konst 1 1 2 2 0) [1] [2, 3] (by decide)⟩

/-! ## Step gate (claim C4) -/

/-- C4: the per-step gate is a pure function of the current sigma, the sigma
schedule, and the availability of the unconditional prediction: without
`uncond` it returns the conditional prediction unchanged; otherwise, with
`step_limit` clamped to at most `S-1`, it applies the Laplacian guidance
mixer exactly when the current sigma is strictly greater than the sigma at
the clamped index, and otherwise returns `uncond + (cond - uncond) *
cond_scale` with `cond_scale` replaced by the configured high scale when the
nominal scale is numerically close to 1.0; for schedule `[10,8,6,4,2,0]` and
`step_limit = 2`, sigma 9 selects full mixing and sigma 3 the fallback
blend. -/
theorem fdg_function_gate (gh : ℚ) (gs pw : List ℚ) (steps : ℕ) (cond u : Tensor)
    (cs : ℚ) (sigmas : List ℚ) (sigma : ℚ) (hS : 1 ≤ sigmas.length) :
    fdg_function gh gs pw steps cond none cs sigmas sigma = some cond ∧
    (sigmas.getD (min steps (sigmas.length - 1)) 0 < sigma →
      fdg_function gh gs pw steps cond (some u) cs sigmas sigma =
        laplacian_guidance cond u gs (some pw)) ∧
    (¬ sigmas.getD (min steps (sigmas.length - 1)) 0 < sigma →
      fdg_function gh gs pw steps cond (some u) cs sigmas sigma =
        (do
          let d ← tsub cond u
          tadd u (smul (if isclose cs 1 then gh else cs) d))) ∧
    fdg_function gh gs pw 2 cond (some u) cs [10, 8, 6, 4, 2, 0] 9 =
      laplacian_guidance cond u gs (some pw) ∧
    fdg_function gh gs pw 2 cond (some u) cs [10, 8, 6, 4, 2, 0] 3 =
      (do
        let d ← tsub cond u
        tadd u (smul (if isclose cs 1 then gh else cs) d)) := by
  have hidx : min steps (sigmas.length - 1) < sigmas.length := by omega
  have hform : (if sigmas.length - 1 ≤ steps then sigmas.length - 1 else steps)
      = min steps (sigmas.length - 1) := by
    rw [min_comm, min_def]
  have hval : sigmas.get? (min steps (sigmas.length - 1))
      = some (sigmas.getD (min steps (sigmas.length - 1)) 0) := by
    rw [List.get?_eq_getElem?, List.getElem?_eq_getElem hidx, List.getD_eq_getElem?_getD,
      List.getElem?_eq_getElem hidx]
    rfl
  refine ⟨rfl, ?_, ?_, rfl, rfl⟩
  · intro hgt
    simp only [fdg_function, hform, hval, Option.bind_eq_bind, Option.some_bind]
    rw [if_pos hgt]
  · intro hle
    simp only [fdg_function, hform, hval, Option.bind_eq_bind, Option.some_bind]
    rw [if_neg hle]

theorem fdg_function_gate_witness :
    1 ≤ [(10 : ℚ), 8, 6, 4, 2, 0].length ∧
    (fdg_function 5 [2] [1] 2 (konst 1 1 1 1 1) none 3 [10, 8, 6, 4, 2, 0] 9 =
        some (konst 1 1 1 1 1) ∧
      ([(10 : ℚ), 8, 6, 4, 2, 0].getD (min 2 ([(10 : ℚ), 8, 6, 4, 2, 0].length - 1)) 0 < 9 →
        fdg_function 5 [2] [1] 2 (konst 1 1 1 1 1) (some (konst 1 1 1 1 0)) 3
            [10, 8, 6, 4, 2, 0] 9 =
          laplacian_guidance (konst 1 1 1 1 1) (konst 1 1 1 1 0) [2] (some [1])) ∧
      (¬ [(10 : ℚ), 8, 6, 4, 2, 0].getD (min 2 ([(10 : ℚ), 8, 6, 4, 2, 0].length - 1)) 0 < 9 →
        fdg_function 5 [2] [1] 2 (konst 1 1 1 1 1) (some (konst 1 1 1 1 0)) 3
            [10, 8, 6, 4, 2, 0] 9 =
          (do
            let d ← tsub (konst 1 1 1 1 1) (konst 1 1 1 1 0)
            tadd (konst 1 1 1 1 0) (smul (if isclose 3 1 then 5 else 3) d))) ∧
      fdg_function 5 [2] [1] 2 (konst 1 1 1 1 1) (some (konst 1 1 1 1 0)) 3
          [10, 8, 6, 4, 2, 0] 9 =
        laplacian_guidance (konst 1 1 1 1 1) (konst 1 1 1 1 0) [2] (some [1]) ∧
      fdg_function 5 [2] [1] 2 (konst 1 1 1 1 1) (some (konst 1 1 1 1 0)) 3
          [10, 8, 6, 4, 2, 0] 3 =
        (do
          let d ← tsub (konst 1 1 1 1 1) (konst 1 1 1 1 0)
          tadd (konst 1 1 1 1 0) (smul (if isclose 3 1 then 5 else 3) d))) :=
  ⟨by decide,
    fdg_function_gate 5 [2] [1] 2 (konst 1 1 1 1 1) (konst 1 1 1 1 0) 3
      [10, 8, 6, 4, 2, 0] 9 (by decide)⟩

/-! ## Guidance mixer: output shape (claim C3) -/

theorem blur_dims (t : Tensor) :
    (blur t).b = t.b ∧ (blur t).c = t.c ∧ (blur t).h = t.h ∧ (blur t).w = t.w :=
  ⟨rfl, rfl, rfl, rfl⟩

theorem pyrdown_iter_dims (t : Tensor) (i : ℕ) :
    (pyrdown^[i] t).b = t.b ∧ (pyrdown^[i] t).c = t.c ∧
    (pyrdown^[i] t).h = halveCeil^[i] t.h ∧ (pyrdown^[i] t).w = halveCeil^[i] t.w := by
  induction i with
  | zero => exact ⟨rfl, rfl, rfl, rfl⟩
  | succ i ih =>
    rw [Function.iterate_succ_apply', Function.iterate_succ_apply', Function.iterate_succ_apply']
    obtain ⟨hb, hc, hh, hw⟩ := ih
    exact ⟨hb, hc, by rw [show (pyrdown (pyrdown^[i] t)).h = halveCeil (pyrdown^[i] t).h from rfl, hh],
      by rw [show (pyrdown (pyrdown^[i] t)).w = halveCeil (pyrdown^[i] t).w from rfl, hw]⟩

theorem lapLevel_dims (t : Tensor) (L i : ℕ) :
    (lapLevel t L i).b = t.b ∧ (lapLevel t L i).c = t.c ∧
    (lapLevel t L i).h = (if i + 1 < L then 2 * halveCeil^[i + 1] t.h else halveCeil^[i] t.h) ∧
    (lapLevel t L i).w = (if i + 1 < L then 2 * halveCeil^[i + 1] t.w else halveCeil^[i] t.w) := by
  unfold lapLevel
  by_cases hi : i + 1 < L
  · rw [if_pos hi, if_pos hi, if_pos hi]
    refine ⟨(pyrdown_iter_dims t i).1, (pyrdown_iter_dims t i).2.1, ?_, ?_⟩
    · show (pyrup (pyrdown^[i + 1] t)).h = _
      show 2 * (pyrdown^[i + 1] t).h = _
      rw [(pyrdown_iter_dims t (i + 1)).2.2.1]
    · show 2 * (pyrdown^[i + 1] t).w = _
      rw [(pyrdown_iter_dims t (i + 1)).2.2.2]
  · rw [if_neg hi, if_neg hi, if_neg hi]
    exact pyrdown_iter_dims t i

theorem div_pow_succ_eq (H L : ℕ) (hdvd : 2 ^ (L - 1) ∣ H) (j : ℕ) (hj : j ≤ L - 1) :
    H / 2 ^ j = 2 ^ (L - 1 - j) * (H / 2 ^ (L - 1)) := by
  obtain ⟨q, hq⟩ := hdvd
  have hq' : H / 2 ^ (L - 1) = q := by
    rw [hq]
    exact Nat.mul_div_cancel_left _ (Nat.pow_pos (by norm_num : (0 : ℕ) < 2))
  rw [hq', hq]
  set e := L - 1 - j with he
  rw [show L - 1 = j + e by omega, pow_add, mul_assoc]
  exact Nat.mul_div_cancel_left _ (Nat.pow_pos (by norm_num : (0 : ℕ) < 2))

theorem double_div_pow (H L : ℕ) (hdvd : 2 ^ (L - 1) ∣ H) (i : ℕ) (hi : i + 1 ≤ L - 1) :
    2 * (H / 2 ^ (i + 1)) = H / 2 ^ i := by
  rw [div_pow_succ_eq H L hdvd (i + 1) hi, div_pow_succ_eq H L hdvd i (by omega),
    show L - 1 - i = (L - 1 - (i + 1)) + 1 by omega, pow_succ]
  ring

theorem halveCeil_iter_of_dvd (H L : ℕ) (hdvd : 2 ^ (L - 1) ∣ H) :
    ∀ i, i ≤ L - 1 → halveCeil^[i] H = H / 2 ^ i := by
  intro i
  induction i with
  | zero => intro _; simp
  | succ i ih =>
    intro hi
    rw [Function.iterate_succ_apply', ih (by omega), ← double_div_pow H L hdvd i hi]
    have : ∀ m : ℕ, halveCeil (2 * m) = m := by
      intro m
      unfold halveCeil
      omega
    rw [this]

theorem Tensor.sdim_symm {t u : Tensor} (h : t.sdim u) : u.sdim t :=
  ⟨h.1.symm, h.2.1.symm, h.2.2.1.symm, h.2.2.2.symm⟩

theorem Tensor.sdim_trans {t u v : Tensor} (h1 : t.sdim u) (h2 : u.sdim v) : t.sdim v :=
  ⟨h1.1.trans h2.1, h1.2.1.trans h2.2.1, h1.2.2.1.trans h2.2.2.1, h1.2.2.2.trans h2.2.2.2⟩

theorem ebin_some_of_sdim (f : ℚ → ℚ → ℚ) (t u : Tensor) (h : t.sdim u) :
    ebin f t u = some ⟨t.b, t.c, t.h, t.w, t.dt.promote u.dt, fun i j k l =>
      f (t.data i j k l) (u.data i j k l)⟩ := by
  obtain ⟨hb, hc, hh, hw⟩ := h
  rw [ebin, ← hb, ← hc, ← hh, ← hw, bdim_self, bdim_self, bdim_self, bdim_self]
  simp [bidx]

theorem project_some_of_sdim (v0 v1 : Tensor) (h : v0.sdim v1) :
    ∃ pr : Tensor × Tensor, project v0 v1 = some pr ∧ pr.1.sdim v0 ∧ pr.2.sdim v0 := by
  obtain ⟨b0, c0, h0, w0, d0, f0⟩ := v0
  obtain ⟨b1, c1, h1, w1, d1, f1⟩ := v1
  obtain rfl : b0 = b1 := h.1
  obtain rfl : c0 = c1 := h.2.1
  obtain rfl : h0 = h1 := h.2.2.1
  obtain rfl : w0 = w1 := h.2.2.2
  simp [project, tmul, tsub, ebin, sumCHW, Tensor.double, Tensor.to, bdim_self,
    bdim_one_left, bidx, Tensor.sdim]

theorem crop_sdim_of_sdim {t u : Tensor} (a c : ℕ) (h : t.sdim u) :
    (crop t a c).sdim (crop u a c) :=
  ⟨h.1, h.2.1, by simp [crop, h.2.2.1], by simp [crop, h.2.2.2]⟩

theorem smul_sdim (q : ℚ) (t : Tensor) : (smul q t).sdim t := ⟨rfl, rfl, rfl, rfl⟩

theorem guideLevels_spec (H W : ℕ) (params : List (Tensor × Tensor × ℚ × ℚ)) :
    ∀ idx, (∀ x ∈ params, (x.1 : Tensor).sdim x.2.1) →
    ∃ gl, guideLevels H W idx params = some gl ∧ gl.length = params.length ∧
      ∀ m x g, params.get? m = some x → gl.get? m = some g →
        (g.b = x.1.b ∧ g.c = x.1.c ∧
         g.h = min x.1.h (H / 2 ^ (idx + m)) ∧ g.w = min x.1.w (W / 2 ^ (idx + m))) ∧
        (x.2.2.1 = 1 → x.2.2.2 = 1 →
          ∀ i j k l, g.data i j k l = x.1.data i j k l) := by
  induction params with
  | nil =>
    intro idx _
    exact ⟨[], rfl, rfl, fun m x g hx => by simp at hx⟩
  | cons p rest ih =>
    intro idx hall
    obtain ⟨pc, pu, s, wgt⟩ := p
    have hsd : pc.sdim pu := hall _ (List.mem_cons_self _ _)
    have hsd' : (crop pc (H / 2 ^ idx) (W / 2 ^ idx)).sdim (crop pu (H / 2 ^ idx) (W / 2 ^ idx)) :=
      crop_sdim_of_sdim _ _ hsd
    have hdiff := ebin_some_of_sdim (· - ·) _ _ hsd'
    set cpc := crop pc (H / 2 ^ idx) (W / 2 ^ idx) with hcpc
    set D : Tensor := ⟨cpc.b, cpc.c, cpc.h, cpc.w, cpc.dt.promote
      (crop pu (H / 2 ^ idx) (W / 2 ^ idx)).dt, fun i j k l =>
        cpc.data i j k l - (crop pu (H / 2 ^ idx) (W / 2 ^ idx)).data i j k l⟩ with hD
    have hDsd : D.sdim cpc := ⟨rfl, rfl, rfl, rfl⟩
    obtain ⟨pr, hpr, hp1, hp2⟩ := project_some_of_sdim D cpc hDsd
    have hE := ebin_some_of_sdim (· + ·) (smul wgt pr.1) pr.2
      (Tensor.sdim_trans (Tensor.sdim_trans (smul_sdim wgt pr.1) hp1) (Tensor.sdim_symm hp2))
    set E : Tensor := ⟨(smul wgt pr.1).b, (smul wgt pr.1).c, (smul wgt pr.1).h,
      (smul wgt pr.1).w, (smul wgt pr.1).dt.promote pr.2.dt, fun i j k l =>
        (smul wgt pr.1).data i j k l + pr.2.data i j k l⟩ with hEdef
    have hEsd : E.sdim cpc := Tensor.sdim_trans (Tensor.sdim_trans ⟨rfl, rfl, rfl, rfl⟩
      (smul_sdim wgt pr.1)) hp1
    have hPG := ebin_some_of_sdim (· + ·) cpc (smul (s - 1) E)
      (Tensor.sdim_symm (Tensor.sdim_trans (smul_sdim (s - 1) E) hEsd))
    obtain ⟨gl, hgl, hlen, hidxp⟩ := ih (idx + 1) (fun x hx => hall x (List.mem_cons_of_mem _ hx))
    refine ⟨⟨cpc.b, cpc.c, cpc.h, cpc.w, cpc.dt.promote (smul (s - 1) E).dt, fun i j k l =>
        cpc.data i j k l + (smul (s - 1) E).data i j k l⟩ :: gl, ?_, ?_, ?_⟩
    · show guideLevels H W idx ((pc, pu, s, wgt) :: rest) = _
      rw [guideLevels]
      rw [show tsub cpc (crop pu (H / 2 ^ idx) (W / 2 ^ idx)) =
        ebin (· - ·) cpc (crop pu (H / 2 ^ idx) (W / 2 ^ idx)) from rfl, hdiff]
      simp only [Option.bind_eq_bind, Option.some_bind]
      rw [hpr]
      simp only [Option.some_bind]
      rw [show tadd (smul wgt pr.1) pr.2 = ebin (· + ·) (smul wgt pr.1) pr.2 from rfl, hE]
      simp only [Option.some_bind]
      rw [show tadd cpc (smul (s - 1) E) = ebin (· + ·) cpc (smul (s - 1) E) from rfl, hPG]
      simp only [Option.some_bind]
      rw [hgl]
      simp only [Option.some_bind]
      rfl
    · simp [hlen]
    · intro m x g hx hg
      cases m with
      | zero =>
        obtain rfl : (pc, pu, s, wgt) = x := by simpa using hx
        obtain rfl : _ = g := by simpa using hg
        refine ⟨⟨rfl, rfl, ?_, ?_⟩, ?_⟩
        · show min pc.h (H / 2 ^ idx) = min pc.h (H / 2 ^ (idx + 0))
          rw [Nat.add_zero]
        · show min pc.w (W / 2 ^ idx) = min pc.w (W / 2 ^ (idx + 0))
          rw [Nat.add_zero]
        · intro hs hw i j k l
          have hs' : s = 1 := hs
          show cpc.data i j k l + (smul (s - 1) E).data i j k l = pc.data i j k l
          have hcd : cpc.data i j k l = pc.data i j k l := rfl
          rw [hcd, show (smul (s - 1) E).data i j k l = (s - 1) * E.data i j k l from rfl, hs']
          ring
      | succ m =>
        have hx' : rest.get? m = some x := by simpa using hx
        have hg' : gl.get? m = some g := by simpa using hg
        have := hidxp m x g hx' hg'
        refine ⟨⟨this.1.1, this.1.2.1, ?_, ?_⟩, this.2⟩
        · rw [this.1.2.2.1, show idx + 1 + m = idx + (m + 1) from by omega]
        · rw [this.1.2.2.2, show idx + 1 + m = idx + (m + 1) from by omega]

theorem pyrup_dims (t : Tensor) :
    (pyrup t).b = t.b ∧ (pyrup t).c = t.c ∧ (pyrup t).h = 2 * t.h ∧ (pyrup t).w = 2 * t.w :=
  ⟨rfl, rfl, rfl, rfl⟩

theorem reconstructLoop_some (BB CC H W : ℕ) :
    ∀ (l : List Tensor) (idx : ℕ) (img : Tensor),
    (∀ m t, l.get? m = some t →
      t.b = BB ∧ t.c = CC ∧ t.h = H / 2 ^ (idx + m) ∧ t.w = W / 2 ^ (idx + m)) →
    (∀ m, m < l.length → 2 * (H / 2 ^ (idx + m + 1)) = H / 2 ^ (idx + m) ∧
      2 * (W / 2 ^ (idx + m + 1)) = W / 2 ^ (idx + m)) →
    img.b = BB → img.c = CC →
    img.h = H / 2 ^ (idx + l.length) → img.w = W / 2 ^ (idx + l.length) →
    ∃ r, reconstructLoop l img = some r ∧
      r.b = BB ∧ r.c = CC ∧ r.h = H / 2 ^ idx ∧ r.w = W / 2 ^ idx := by
  intro l
  induction l with
  | nil =>
    intro idx img hlev hdouble hb hc hh hw
    exact ⟨img, rfl, hb, hc, by simpa using hh, by simpa using hw⟩
  | cons lv rest ih =>
    intro idx img hlev hdouble hb hc hh hw
    obtain ⟨r', hr', hrb, hrc, hrh, hrw⟩ := ih (idx + 1) img
      (fun m t hm => by
        have h3 := hlev (m + 1) t (by simpa using hm)
        refine ⟨h3.1, h3.2.1, ?_, ?_⟩
        · rw [h3.2.2.1, show idx + (m + 1) = idx + 1 + m from by omega]
        · rw [h3.2.2.2, show idx + (m + 1) = idx + 1 + m from by omega])
      (fun m hm => by
        have h4 := hdouble (m + 1) (by simpa using Nat.succ_lt_succ hm)
        constructor
        · rw [show idx + 1 + m + 1 = idx + (m + 1) + 1 from by omega,
            show idx + 1 + m = idx + (m + 1) from by omega]
          exact h4.1
        · rw [show idx + 1 + m + 1 = idx + (m + 1) + 1 from by omega,
            show idx + 1 + m = idx + (m + 1) from by omega]
          exact h4.2)
      hb hc
      (by rw [hh, show idx + (lv :: rest).length = idx + 1 + rest.length from by simp; omega])
      (by rw [hw, show idx + (lv :: rest).length = idx + 1 + rest.length from by simp; omega])
    have hlv := hlev 0 lv rfl
    have hsd : (pyrup r').sdim lv := by
      refine ⟨?_, ?_, ?_, ?_⟩
      · rw [(pyrup_dims r').1, hrb, hlv.1]
      · rw [(pyrup_dims r').2.1, hrc, hlv.2.1]
      · rw [(pyrup_dims r').2.2.1, hrh, hlv.2.2.1, Nat.add_zero]
        exact (hdouble 0 (by simp)).1.trans (by rw [Nat.add_zero])
      · rw [(pyrup_dims r').2.2.2, hrw, hlv.2.2.2, Nat.add_zero]
        exact (hdouble 0 (by simp)).2.trans (by rw [Nat.add_zero])
    have hadd := ebin_some_of_sdim (· + ·) (pyrup r') lv hsd
    refine ⟨⟨(pyrup r').b, (pyrup r').c, (pyrup r').h, (pyrup r').w,
      (pyrup r').dt.promote lv.dt, fun i j k l =>
        (pyrup r').data i j k l + lv.data i j k l⟩, ?_, ?_, ?_, ?_, ?_⟩
    · rw [reconstructLoop, hr']
      simp only [Option.bind_eq_bind, Option.some_bind]
      rw [show tadd (pyrup r') lv = ebin (· + ·) (pyrup r') lv from rfl, hadd]
    · show (pyrup r').b = BB
      rw [(pyrup_dims r').1, hrb]
    · show (pyrup r').c = CC
      rw [(pyrup_dims r').2.1, hrc]
    · show (pyrup r').h = H / 2 ^ idx
      rw [(pyrup_dims r').2.2.1, hrh]
      exact (hdouble 0 (by simp)).1.trans (by rw [Nat.add_zero])
    · show (pyrup r').w = W / 2 ^ idx
      rw [(pyrup_dims r').2.2.2, hrw]
      exact (hdouble 0 (by simp)).2.trans (by rw [Nat.add_zero])

theorem build_image_some (BB CC H W : ℕ) (gl : List Tensor) (hne : gl.length ≠ 0)
    (hlev : ∀ m t, gl.get? m = some t →
      t.b = BB ∧ t.c = CC ∧ t.h = H / 2 ^ m ∧ t.w = W / 2 ^ m)
    (hdouble : ∀ m, m + 1 < gl.length → 2 * (H / 2 ^ (m + 1)) = H / 2 ^ m ∧
      2 * (W / 2 ^ (m + 1)) = W / 2 ^ m) :
    ∃ r, build_image_from_pyramid gl = some r ∧
      r.b = BB ∧ r.c = CC ∧ r.h = H ∧ r.w = W := by
  obtain ⟨last, hlast⟩ : ∃ last, gl.getLast? = some last := by
    cases hgl : gl.getLast? with
    | none => exact absurd (List.getLast?_eq_none_iff.1 hgl) (by intro h; rw [h] at hne; simp at hne)
    | some t => exact ⟨t, rfl⟩
  have hlastidx : gl.get? (gl.length - 1) = some last := by
    rw [List.get?_eq_getElem?, ← List.getLast?_eq_getElem? gl]
    exact hlast
  have hlastdims := hlev (gl.length - 1) last hlastidx
  obtain ⟨r, hr, hrb, hrc, hrh, hrw⟩ := reconstructLoop_some BB CC H W gl.dropLast 0 last
    (fun m t hm => by
      have hmlen : m < gl.length - 1 := by
        by_contra hcon
        rw [List.get?_eq_getElem?, List.getElem?_dropLast, if_neg hcon] at hm
        exact Option.noConfusion hm
      have : gl.get? m = some t := by
        rw [List.get?_eq_getElem?] at hm ⊢
        rwa [List.getElem?_dropLast, if_pos hmlen] at hm
      have h5 := hlev m t this
      simpa using h5)
    (fun m hm => by
      have hmlen : m + 1 < gl.length := by
        rw [List.length_dropLast] at hm
        omega
      simpa using hdouble m hmlen)
    hlastdims.1 hlastdims.2.1
    (by rw [hlastdims.2.2.1, List.length_dropLast, Nat.zero_add])
    (by rw [hlastdims.2.2.2, List.length_dropLast, Nat.zero_add])
  refine ⟨r, ?_, hrb, hrc, by simpa using hrh, by simpa using hrw⟩
  rw [build_image_from_pyramid, hlast]
  simp only [Option.bind_eq_bind, Option.some_bind]
  exact hr

theorem zip4_length {α β γ δ : Type} : ∀ (as : List α) (bs : List β) (cs : List γ) (ds : List δ),
    (zip4 as bs cs ds).length = min (min as.length bs.length) (min cs.length ds.length)
  | [], bs, cs, ds => by simp [zip4]
  | _ :: _, [], _, _ => by simp [zip4]
  | _ :: _, _ :: _, [], _ => by simp [zip4]
  | _ :: _, _ :: _, _ :: _, [] => by simp [zip4]
  | a :: as, b :: bs, c :: cs, d :: ds => by
      simp only [zip4, List.length_cons, zip4_length as bs cs ds]
      omega

theorem zip4_get? {α β γ δ : Type} : ∀ (as : List α) (bs : List β) (cs : List γ) (ds : List δ)
    (m : ℕ) (x : α × β × γ × δ), (zip4 as bs cs ds).get? m = some x →
    as.get? m = some x.1 ∧ bs.get? m = some x.2.1 ∧
      cs.get? m = some x.2.2.1 ∧ ds.get? m = some x.2.2.2
  | a :: as, b :: bs, c :: cs, d :: ds, 0, x, hx => by
      obtain rfl : (a, b, c, d) = x := by simpa [zip4] using hx
      exact ⟨rfl, rfl, rfl, rfl⟩
  | a :: as, b :: bs, c :: cs, d :: ds, m + 1, x, hx => by
      have h7 := zip4_get? as bs cs ds m x (by simpa [zip4] using hx)
      simpa using h7
  | [], _, _, _, m, x, hx => by simp [zip4] at hx
  | _ :: _, [], _, _, m, x, hx => by simp [zip4] at hx
  | _ :: _, _ :: _, [], _, m, x, hx => by simp [zip4] at hx
  | _ :: _, _ :: _, _ :: _, [], m, x, hx => by simp [zip4] at hx

theorem buildLaplacianPyramid_length (t : Tensor) (L : ℕ) :
    (buildLaplacianPyramid t L).length = max 1 L := by
  rw [buildLaplacianPyramid, List.length_map, List.length_range]

theorem buildLaplacianPyramid_get? (t : Tensor) (L m : ℕ) (hm : m < max 1 L) :
    (buildLaplacianPyramid t L).get? m = some (lapLevel t (max 1 L) m) := by
  rw [buildLaplacianPyramid, List.get?_eq_getElem?, List.getElem?_map, List.getElem?_range hm]
  rfl

theorem lapLevel_dims_dvd (t : Tensor) (L i : ℕ) (hL : 1 ≤ L) (hi : i < L)
    (hdH : 2 ^ (L - 1) ∣ t.h) (hdW : 2 ^ (L - 1) ∣ t.w) :
    (lapLevel t L i).b = t.b ∧ (lapLevel t L i).c = t.c ∧
    (lapLevel t L i).h = t.h / 2 ^ i ∧ (lapLevel t L i).w = t.w / 2 ^ i := by
  obtain ⟨hb, hc, hh, hw⟩ := lapLevel_dims t L i
  refine ⟨hb, hc, ?_, ?_⟩
  · rw [hh]
    by_cases hcase : i + 1 < L
    · rw [if_pos hcase, halveCeil_iter_of_dvd t.h L hdH (i + 1) (by omega)]
      exact double_div_pow t.h L hdH i (by omega)
    · rw [if_neg hcase, halveCeil_iter_of_dvd t.h L hdH i (by omega)]
  · rw [hw]
    by_cases hcase : i + 1 < L
    · rw [if_pos hcase, halveCeil_iter_of_dvd t.w L hdW (i + 1) (by omega)]
      exact double_div_pow t.w L hdW i (by omega)
    · rw [if_neg hcase, halveCeil_iter_of_dvd t.w L hdW i (by omega)]

/-- C3 (amended): for equal-shaped inputs, at least one pyramid level, and
spatial sizes divisible by `2^(levels-1)` (so every cropped level has the
consistent size `H/2^i x W/2^i`), `laplacian_guidance` succeeds and returns
a tensor with the same shape (batch, channel, height, width) and the same
element type as `pred_cond`. -/
theorem laplacian_guidance_shape (p u : Tensor) (gs : List ℚ)
    (hb : p.b = u.b) (hc : p.c = u.c) (hh : p.h = u.h) (hw : p.w = u.w)
    (hL : 1 ≤ gs.length)
    (hdH : 2 ^ (gs.length - 1) ∣ p.h) (hdW : 2 ^ (gs.length - 1) ∣ p.w) :
    ∃ t, laplacian_guidance p u gs none = some t ∧
      t.b = p.b ∧ t.c = p.c ∧ t.h = p.h ∧ t.w = p.w ∧ t.dt = p.dt := by
  have hmax : max 1 gs.length = gs.length := by omega
  set params := zip4 (buildLaplacianPyramid p gs.length) (buildLaplacianPyramid u gs.length)
    gs (List.replicate gs.length (1 : ℚ)) with hparams
  have hplen : params.length = gs.length := by
    rw [hparams, zip4_length, buildLaplacianPyramid_length, buildLaplacianPyramid_length,
      hmax, List.length_replicate]
    omega
  have hcomp : ∀ m x, params.get? m = some x →
      m < gs.length ∧ x.1 = lapLevel p gs.length m ∧ x.2.1 = lapLevel u gs.length m := by
    intro m x hx
    have hmlen : m < gs.length := by
      by_contra hcon
      rw [List.get?_eq_getElem?, List.getElem?_eq_none (by omega : params.length ≤ m)] at hx
      exact Option.noConfusion hx
    have h8 := zip4_get? _ _ _ _ m x hx
    have hp1 := h8.1
    have hp2 := h8.2.1
    rw [buildLaplacianPyramid_get? p gs.length m (by omega)] at hp1
    rw [buildLaplacianPyramid_get? u gs.length m (by omega)] at hp2
    rw [hmax] at hp1 hp2
    exact ⟨hmlen, (Option.some_inj.1 hp1).symm, (Option.some_inj.1 hp2).symm⟩
  have hall : ∀ x ∈ params, (x.1 : Tensor).sdim x.2.1 := by
    intro x hx
    obtain ⟨m, hm⟩ := List.mem_iff_get?.1 hx
    obtain ⟨hmlen, hx1, hx2⟩ := hcomp m x hm
    rw [hx1, hx2]
    obtain ⟨pb2, pc2, ph2, pw2⟩ := lapLevel_dims p gs.length m
    obtain ⟨ub2, uc2, uh2, uw2⟩ := lapLevel_dims u gs.length m
    exact ⟨by rw [pb2, ub2, hb], by rw [pc2, uc2, hc], by rw [ph2, uh2, hh],
      by rw [pw2, uw2, hw]⟩
  obtain ⟨gl, hgl, hglen, hprops⟩ := guideLevels_spec p.h p.w params 0 hall
  have hL0 : gl.length = gs.length := by rw [hglen, hplen]
  obtain ⟨r, hr, hrb, hrc, hrh, hrw⟩ := build_image_some p.b p.c p.h p.w gl (by omega)
    (fun m t hm => by
      have hmgl : m < gl.length := by
        by_contra hcon
        rw [List.get?_eq_getElem?, List.getElem?_eq_none (by omega : gl.length ≤ m)] at hm
        exact Option.noConfusion hm
      have hmp : m < params.length := by omega
      obtain ⟨x, hx⟩ : ∃ x, params.get? m = some x := by
        rw [List.get?_eq_getElem?, List.getElem?_eq_getElem hmp]
        exact ⟨params[m], rfl⟩
      obtain ⟨hmlen, hx1, hx2⟩ := hcomp m x hx
      obtain ⟨⟨gb, gc, gh2, gw2⟩, _⟩ := hprops m x t hx hm
      obtain ⟨lb, lc, lh, lw⟩ := lapLevel_dims_dvd p gs.length m hL hmlen hdH hdW
      refine ⟨by rw [gb, hx1, lb], by rw [gc, hx1, lc], ?_, ?_⟩
      · rw [gh2, hx1, lh, Nat.zero_add, Nat.min_self]
      · rw [gw2, hx1, lw, Nat.zero_add, Nat.min_self])
    (fun m hm1 => by
      constructor
      · exact double_div_pow p.h gs.length hdH m (by omega)
      · exact double_div_pow p.w gs.length hdW m (by omega))
  refine ⟨r.to p.dt, ?_, hrb, hrc, hrh, hrw, rfl⟩
  simp only [laplacian_guidance, Option.getD_none, Option.bind_eq_bind]
  rw [← hparams, hgl]
  simp only [Option.some_bind]
  rw [hr]
  rfl

/-- C3 counterexample: for 5x5 inputs and two pyramid levels the cropped
level sizes are 5 and 2; reconstruction adds the 4x4 upsampling of the 2x2
base to the 5x5 finest level, which is not broadcastable, so
`laplacian_guidance` raises a shape error instead of returning a tensor of
the input's shape. -/
theorem laplacian_guidance_shape_counterexample :
    (laplacian_guidance (konst 1 1 5 5 1) (konst 1 1 5 5 0) [2, 3] none).isNone = true := by
  decide

theorem laplacian_guidance_shape_witness :
    (konst 1 1 4 4 1).b = (konst 1 1 4 4 0).b ∧
    (konst 1 1 4 4 1).c = (konst 1 1 4 4 0).c ∧
    (konst 1 1 4 4 1).h = (konst 1 1 4 4 0).h ∧
    (konst 1 1 4 4 1).w = (konst 1 1 4 4 0).w ∧
    1 ≤ [(2 : ℚ), 3].length ∧
    2 ^ ([(2 : ℚ), 3].length - 1) ∣ (konst 1 1 4 4 1).h ∧
    2 ^ ([(2 : ℚ), 3].length - 1) ∣ (konst 1 1 4 4 1).w ∧
    (∃ t, laplacian_guidance (konst 1 1 4 4 1) (konst 1 1 4 4 0) [2, 3] none = some t ∧
      t.b = (konst 1 1 4 4 1).b ∧ t.c = (konst 1 1 4 4 1).c ∧ t.h = (konst 1 1 4 4 1).h ∧
      t.w = (konst 1 1 4 4 1).w ∧ t.dt = (konst 1 1 4 4 1).dt) :=
  ⟨rfl, rfl, rfl, rfl, by decide, by decide, by decide,
    laplacian_guidance_shape (konst 1 1 4 4 1) (konst 1 1 4 4 0) [2, 3] rfl rfl rfl rfl
      (by decide) (by decide) (by decide)⟩

/-! ## Guidance mixer: identity guidance (claim C1) -/

theorem bdim_cases_left {m n D : ℕ} (h : bdim m n = some D) : D = m ∨ m = 1 := by
  unfold bdim at h
  split_ifs at h <;> simp_all

theorem bdim_cases_right {m n D : ℕ} (h : bdim m n = some D) : D = n ∨ n = 1 := by
  unfold bdim at h
  split_ifs at h <;> simp_all

theorem bidx_lt {m D i : ℕ} (hcase : D = m ∨ m = 1) (hi : i < D) : bidx m D i < m := by
  unfold bidx
  split_ifs with h1 <;> omega

theorem ebin_congr (f : ℚ → ℚ → ℚ) {t t' u u' : Tensor}
    (ht : t.deqv t') (hu : u.deqv u') : optDeqv (ebin f t u) (ebin f t' u') := by
  obtain ⟨⟨htb, htc, hth, htw⟩, htd⟩ := ht
  obtain ⟨⟨hub, huc, huh, huw⟩, hud⟩ := hu
  rw [ebin, ebin, ← htb, ← htc, ← hth, ← htw, ← hub, ← huc, ← huh, ← huw]
  cases hB : bdim t.b u.b with
  | none => simp [optDeqv]
  | some B =>
    cases hC : bdim t.c u.c with
    | none => simp [optDeqv]
    | some C =>
      cases hH : bdim t.h u.h with
      | none => simp [optDeqv]
      | some H =>
        cases hW : bdim t.w u.w with
        | none => simp [optDeqv]
        | some W =>
          simp only [Option.bind_eq_bind, Option.some_bind, optDeqv]
          refine ⟨⟨rfl, rfl, rfl, rfl⟩, ?_⟩
          intro i hi j hj k hk l hl
          dsimp only at hi hj hk hl ⊢
          rw [htd _ (bidx_lt (bdim_cases_left hB) hi) _ (bidx_lt (bdim_cases_left hC) hj)
              _ (bidx_lt (bdim_cases_left hH) hk) _ (bidx_lt (bdim_cases_left hW) hl),
            hud _ (bidx_lt (bdim_cases_right hB) hi) _ (bidx_lt (bdim_cases_right hC) hj)
              _ (bidx_lt (bdim_cases_right hH) hk) _ (bidx_lt (bdim_cases_right hW) hl)]

theorem clampIdx_lt {H : ℕ} (hH : 0 < H) (z : ℤ) : clampIdx H z < H := by
  unfold clampIdx
  omega

theorem blurH_congr {t t' : Tensor} (ht : t.deqv t') : (blurH t).deqv (blurH t') := by
  obtain ⟨⟨htb, htc, hth, htw⟩, htd⟩ := ht
  refine ⟨⟨htb, htc, hth, htw⟩, ?_⟩
  intro i hi j hj k hk l hl
  have hk' : k < t.h := hk
  show (∑ m in Finset.range 5, K5 m * t.data i j (clampIdx t.h ((k : ℤ) + m - 2)) l)
    = (∑ m in Finset.range 5, K5 m * t'.data i j (clampIdx t'.h ((k : ℤ) + m - 2)) l)
  rw [← hth]
  refine Finset.sum_congr rfl fun m _ => ?_
  rw [htd i hi j hj _ (clampIdx_lt (by omega) _) l hl]

theorem blurW_congr {t t' : Tensor} (ht : t.deqv t') : (blurW t).deqv (blurW t') := by
  obtain ⟨⟨htb, htc, hth, htw⟩, htd⟩ := ht
  refine ⟨⟨htb, htc, hth, htw⟩, ?_⟩
  intro i hi j hj k hk l hl
  have hl' : l < t.w := hl
  show (∑ m in Finset.range 5, K5 m * t.data i j k (clampIdx t.w ((l : ℤ) + m - 2)))
    = (∑ m in Finset.range 5, K5 m * t'.data i j k (clampIdx t'.w ((l : ℤ) + m - 2)))
  rw [← htw]
  refine Finset.sum_congr rfl fun m _ => ?_
  rw [htd i hi j hj k hk _ (clampIdx_lt (by omega) _)]

theorem pyrup_congr {t t' : Tensor} (ht : t.deqv t') : (pyrup t).deqv (pyrup t') := by
  obtain ⟨⟨htb, htc, hth, htw⟩, htd⟩ := ht
  refine blurW_congr (blurH_congr ⟨⟨htb, htc, by dsimp only; omega, by dsimp only; omega⟩, ?_⟩)
  intro i hi j hj k hk l hl
  dsimp only at hi hj hk hl ⊢
  exact htd i hi j hj _ (by omega) _ (by omega)

theorem reconstructLoop_congr : ∀ {l l' : List Tensor} {img img' : Tensor},
    List.Forall₂ Tensor.deqv l l' → img.deqv img' →
    optDeqv (reconstructLoop l img) (reconstructLoop l' img') := by
  intro l l' img img' hll himg
  induction hll with
  | nil => exact himg
  | cons hhead htail ih =>
    rw [reconstructLoop, reconstructLoop]
    rcases hrest : reconstructLoop _ img with _ | r
    all_goals rw [hrest] at ih
    · rcases hrest' : reconstructLoop _ img' with _ | r'
      · simp [optDeqv]
      · rw [hrest'] at ih
        exact absurd ih (by simp [optDeqv])
    · rcases hrest' : reconstructLoop _ img' with _ | r'
      · rw [hrest'] at ih
        exact absurd ih (by simp [optDeqv])
      · rw [hrest'] at ih
        simp only [Option.bind_eq_bind, Option.some_bind]
        exact ebin_congr (· + ·) (pyrup_congr ih) hhead

theorem cropPyramid_length (H W : ℕ) : ∀ (idx : ℕ) (l : List Tensor),
    (cropPyramid H W idx l).length = l.length
  | _, [] => rfl
  | idx, t :: rest => by
      simp only [cropPyramid, List.length_cons, cropPyramid_length H W (idx + 1) rest]

theorem cropPyramid_get? (H W : ℕ) : ∀ (l : List Tensor) (idx m : ℕ),
    (cropPyramid H W idx l).get? m =
      (l.get? m).map (fun t => crop t (H / 2 ^ (idx + m)) (W / 2 ^ (idx + m)))
  | [], idx, m => by simp [cropPyramid]
  | t :: rest, idx, 0 => by simp [cropPyramid]
  | t :: rest, idx, m + 1 => by
      show (cropPyramid H W (idx + 1) rest).get? m = _
      rw [cropPyramid_get? H W rest (idx + 1) m,
        show idx + 1 + m = idx + (m + 1) from by omega]
      rfl

theorem build_image_congr {l l' : List Tensor} (h : List.Forall₂ Tensor.deqv l l') :
    optDeqv (build_image_from_pyramid l) (build_image_from_pyramid l') := by
  obtain ⟨hlen, hget⟩ := List.forall₂_iff_get.1 h
  cases l with
  | nil =>
    cases l' with
    | nil => simp [build_image_from_pyramid, optDeqv]
    | cons b bs => simp at hlen
  | cons a as =>
    cases l' with
    | nil => simp at hlen
    | cons b bs =>
      have h1 : 0 < (a :: as).length := by simp
      have h2 : 0 < (b :: bs).length := by simp
      have hlast1 : (a :: as).getLast? =
          some ((a :: as).get ⟨(a :: as).length - 1, by omega⟩) := by
        rw [List.getLast?_eq_getElem?, List.getElem?_eq_getElem (by omega)]
        rfl
      have hlast2 : (b :: bs).getLast? =
          some ((b :: bs).get ⟨(b :: bs).length - 1, by omega⟩) := by
        rw [List.getLast?_eq_getElem?, List.getElem?_eq_getElem (by omega)]
        rfl
      rw [build_image_from_pyramid, build_image_from_pyramid, hlast1, hlast2]
      simp only [Option.bind_eq_bind, Option.some_bind]
      apply reconstructLoop_congr
      · apply List.forall₂_of_length_eq_of_get
        · simp [hlen]
        · intro i hi1 hi2
          have hi1' : i < (a :: as).length - 1 := by
            simpa using hi1
          have e1 : ((a :: as).dropLast).get ⟨i, hi1⟩ = (a :: as).get ⟨i, by omega⟩ := by
            simp [List.get_eq_getElem, List.getElem_dropLast]
          have e2 : ((b :: bs).dropLast).get ⟨i, hi2⟩ = (b :: bs).get ⟨i, by omega⟩ := by
            simp [List.get_eq_getElem, List.getElem_dropLast]
          rw [e1, e2]
          exact hget i _ _
      · have hfin : (b :: bs).length - 1 = (a :: as).length - 1 := by omega
        simp only [hfin]
        exact hget ((a :: as).length - 1) (by omega) (by omega)

/-- C1: for equal-shaped `pred_cond`, `pred_uncond` and any level count
`L >= 1`, `laplacian_guidance` with `guidance_scale = [1.0]*L` and
`parallel_weights = [1.0]*L` makes every guided pyramid level equal the
cropped conditional pyramid level (the `(scale - 1) * diff` term vanishes),
so the output is exactly the pyramid decomposition/crop/reconstruction
round-trip of `pred_cond` (cast to its dtype), with no contribution from the
guidance arithmetic and no dependence on `pred_uncond`. -/
theorem laplacian_guidance_identity (p u : Tensor) (L : ℕ)
    (hb : p.b = u.b) (hc : p.c = u.c) (hh : p.h = u.h) (hw : p.w = u.w) (hL : 1 ≤ L) :
    optEqv (laplacian_guidance p u (List.replicate L 1) (some (List.replicate L 1)))
      ((build_image_from_pyramid (cropPyramid p.h p.w 0 (buildLaplacianPyramid p L))).map
        (fun t => t.to p.dt)) := by
  have hmax : max 1 L = L := by omega
  set params := zip4 (buildLaplacianPyramid p L) (buildLaplacianPyramid u L)
    (List.replicate L (1 : ℚ)) (List.replicate L (1 : ℚ)) with hparams
  have hplen : params.length = L := by
    rw [hparams, zip4_length, buildLaplacianPyramid_length, buildLaplacianPyramid_length, hmax,
      List.length_replicate]
    omega
  have hcomp : ∀ m x, params.get? m = some x →
      m < L ∧ x.1 = lapLevel p L m ∧ x.2.1 = lapLevel u L m ∧
        x.2.2.1 = 1 ∧ x.2.2.2 = 1 := by
    intro m x hx
    have hmlen : m < L := by
      by_contra hcon
      rw [List.get?_eq_getElem?, List.getElem?_eq_none (by omega : params.length ≤ m)] at hx
      exact Option.noConfusion hx
    have h8 := zip4_get? _ _ _ _ m x hx
    have hp1 := h8.1
    have hp2 := h8.2.1
    have hp3 := h8.2.2.1
    have hp4 := h8.2.2.2
    rw [buildLaplacianPyramid_get? p L m (by omega), hmax] at hp1
    rw [buildLaplacianPyramid_get? u L m (by omega), hmax] at hp2
    rw [List.get?_eq_getElem?, List.getElem?_replicate_of_lt hmlen] at hp3 hp4
    exact ⟨hmlen, (Option.some_inj.1 hp1).symm, (Option.some_inj.1 hp2).symm,
      (Option.some_inj.1 hp3).symm, (Option.some_inj.1 hp4).symm⟩
  have hall : ∀ x ∈ params, (x.1 : Tensor).sdim x.2.1 := by
    intro x hx
    obtain ⟨m, hm⟩ := List.mem_iff_get?.1 hx
    obtain ⟨hmlen, hx1, hx2, _, _⟩ := hcomp m x hm
    rw [hx1, hx2]
    obtain ⟨pb2, pc2, ph2, pw2⟩ := lapLevel_dims p L m
    obtain ⟨ub2, uc2, uh2, uw2⟩ := lapLevel_dims u L m
    exact ⟨by rw [pb2, ub2, hb], by rw [pc2, uc2, hc], by rw [ph2, uh2, hh],
      by rw [pw2, uw2, hw]⟩
  obtain ⟨gl, hgl, hglen, hprops⟩ := guideLevels_spec p.h p.w params 0 hall
  have hforall : List.Forall₂ Tensor.deqv gl
      (cropPyramid p.h p.w 0 (buildLaplacianPyramid p L)) := by
    apply List.forall₂_of_length_eq_of_get
    · rw [hglen, hplen, cropPyramid_length, buildLaplacianPyramid_length, hmax]
    · intro i h1 h2
      have hiL : i < L := by
        rw [hglen, hplen] at h1
        exact h1
      have hgq : gl.get? i = some (gl.get ⟨i, h1⟩) := by
        rw [List.get?_eq_getElem?, List.getElem?_eq_getElem h1]
        rfl
      obtain ⟨x, hx⟩ : ∃ x, params.get? i = some x := by
        rw [List.get?_eq_getElem?, List.getElem?_eq_getElem (by omega : i < params.length)]
        exact ⟨params[i], rfl⟩
      obtain ⟨-, hx1, -, hs1, hw1⟩ := hcomp i x hx
      obtain ⟨⟨gdb, gdc, gdh, gdw⟩, hdata⟩ := hprops i x (gl.get ⟨i, h1⟩) hx hgq
      have hcropq : (cropPyramid p.h p.w 0 (buildLaplacianPyramid p L)).get ⟨i, h2⟩ =
          crop (lapLevel p L i) (p.h / 2 ^ (0 + i)) (p.w / 2 ^ (0 + i)) := by
        have hq : (cropPyramid p.h p.w 0 (buildLaplacianPyramid p L)).get? i =
            some ((cropPyramid p.h p.w 0 (buildLaplacianPyramid p L)).get ⟨i, h2⟩) := by
          rw [List.get?_eq_getElem?, List.getElem?_eq_getElem h2]
          rfl
        rw [cropPyramid_get?, buildLaplacianPyramid_get? p L i (by omega), hmax] at hq
        exact Option.some_inj.1 hq.symm
      rw [hcropq]
      refine ⟨⟨?_, ?_, ?_, ?_⟩, ?_⟩
      · rw [gdb, hx1]
        rfl
      · rw [gdc, hx1]
        rfl
      · rw [gdh, hx1]
        rfl
      · rw [gdw, hx1]
        rfl
      · intro i2 _ j2 _ k2 _ l2 _
        rw [hdata hs1 hw1 i2 j2 k2 l2, hx1]
        rfl
  have hrec := build_image_congr hforall
  simp only [laplacian_guidance, List.length_replicate, Option.getD_some, Option.bind_eq_bind]
  rw [← hparams, hgl]
  simp only [Option.some_bind]
  rcases h1 : build_image_from_pyramid gl with _ | r <;>
    rcases h2 : build_image_from_pyramid
      (cropPyramid p.h p.w 0 (buildLaplacianPyramid p L)) with _ | r2 <;>
    rw [h1, h2] at hrec
  · simp [optEqv]
  · exact absurd hrec (by simp [optDeqv])
  · exact absurd hrec (by simp [optDeqv])
  · show optEqv (some (r.to p.dt)) (some (r2.to p.dt))
    exact ⟨⟨hrec.1, hrec.2⟩, rfl⟩

theorem laplacian_guidance_identity_witness :
    (konst 1 1 2 2 3).b = (konst 1 1 2 2 5).b ∧
    (konst 1 1 2 2 3).c = (konst 1 1 2 2 5).c ∧
    (konst 1 1 2 2 3).h = (konst 1 1 2 2 5).h ∧
    (konst 1 1 2 2 3).w = (konst 1 1 2 2 5).w ∧
    1 ≤ 1 ∧
    optEqv (laplacian_guidance (konst 1 1 2 2 3) (konst 1 1 2 2 5)
        (List.replicate 1 1) (some (List.replicate 1 1)))
      ((build_image_from_pyramid (cropPyramid (konst 1 1 2 2 3).h (konst 1 1 2 2 3).w 0
          (buildLaplacianPyramid (konst 1 1 2 2 3) 1))).map
        (fun t => t.to (konst 1 1 2 2 3).dt)) :=
  ⟨rfl, rfl, rfl, rfl, by decide,
    laplacian_guidance_identity (konst 1 1 2 2 3) (konst 1 1 2 2 5) 1 rfl rfl rfl rfl
      (by decide)⟩
